import Mathlib

/-!
Verification of the failure-diagnosis core of the supporter repository.

The definitions below are a shallow embedding of the Python sources:
log analysis and retrieval helpers from utils/fetch_data.py, the narrative
variant of the point-of-failure scan from utils/supporter.py, the retry
wrappers from utils/ai_utils.py, and the reaction-state machine from
slack_integration/event_handler.py.  Log events are modelled as a structure
holding exactly the fields the analysed code reads; optional dictionary
keys become Option fields.  Scores, which the Python code stores as floats
but manipulates only through exact arithmetic in the properties of
interest, are modelled as rationals.
-/

namespace Supporter

/-! ## Python string primitives

Helpers mirroring the Python string operations used by the code:
str.lower (ASCII case folding via Char.toLower applied pointwise),
the substring test of the `in` operator, and str.split with no
arguments (split on whitespace runs, dropping empty fragments). -/

/-- Embeds Python str.lower applied to the texts handled here. -/
def pyLower (s : String) : String := String.mk (s.data.map Char.toLower)

/-- Embeds the Python substring test needle in hay. -/
def pyContains (needle hay : String) : Bool :=
  hay.data.tails.any (fun t => needle.data.isPrefixOf t)

/-- Accumulator-style splitter over characters: clause for the Python
str.split() with no argument.  The second argument holds the current
word reversed. -/
def wordsChars : List Char → List Char → List (List Char)
  | [], acc => if acc.isEmpty then [] else [acc.reverse]
  | c :: cs, acc =>
    if c.isWhitespace then
      (if acc.isEmpty then wordsChars cs [] else acc.reverse :: wordsChars cs [])
    else wordsChars cs (c :: acc)

/-- Number of words of a string under Python str.split(). -/
def pyWordCount (s : String) : Nat := (wordsChars s.data []).length

/-- Truthiness of an optional string in Python: None and the empty
string are falsy. -/
def pyTruthy : Option String → Bool
  | none => false
  | some s => s ≠ ""

/-! ## The log event data model -/

/-- One entry of a run log, with the fields read by the analysed code.
Optional dictionary keys are Option fields; absent keys are none. -/
structure LogEvent where
  eventType : String
  stepUuid : Option String := none
  stepId : Option String := none
  name : Option String := none
  task : Option String := none
  timestamp : String := ""
  debug : Option String := none
  error : Option String := none
deriving DecidableEq

def isTaskFailed (e : LogEvent) : Bool := e.eventType == "TASK_FAILED"

def isStepCompleted (e : LogEvent) : Bool := e.eventType == "STEP_COMPLETED"

def isStepFailed (e : LogEvent) : Bool := e.eventType == "STEP_FAILED"

/-- The five event types collected by load_log_preceding_steps. -/
def boundaryEventTypes : List String :=
  ["STEP_COMPLETED", "STEP_FAILED", "SUBTASK_COMPLETED", "SUBTASK_FAILED", "TASK_FAILED"]

def isBoundaryType (e : LogEvent) : Bool := boundaryEventTypes.contains e.eventType

/-- The two event types that consume the steps_to_include budget. -/
def isRegularType (e : LogEvent) : Bool :=
  e.eventType == "STEP_COMPLETED" || e.eventType == "STEP_FAILED"

/-- An event carrying a stepUuid key. -/
def isStepBearing (e : LogEvent) : Bool := e.stepUuid.isSome

/-- Embeds the Python idiom next((i for (i, x) in enumerate(l) if p x), None). -/
def firstIdx? {α : Type} (p : α → Bool) : List α → Option Nat
  | [] => none
  | a :: as => if p a then some 0 else (firstIdx? p as).map (· + 1)

/-! ## count_steps_between (utils/fetch_data.py lines 126 to 143) -/

/-- All indices of the log whose entry has the given stepUuid, in order:
the list comprehension over enumerate in count_steps_between. -/
def occIdxs (log : List LogEvent) (id : String) : List Nat :=
  (List.range log.length).filter (fun i => (log.get? i).any (fun e => e.stepUuid == some id))

/-- Embeds count_steps_between: 0 when either id is absent or the last
occurrence of start_id does not precede the last occurrence of end_id,
else the number of entries carrying a stepUuid in the slice strictly
between the two last occurrences. -/
def count_steps_between (log : List LogEvent) (start_id end_id : String) : Nat :=
  match (occIdxs log start_id).getLast?, (occIdxs log end_id).getLast? with
  | some s, some e =>
    if e ≤ s then 0
    else ((log.drop (s + 1)).take (e - (s + 1))).countP isStepBearing
  | _, _ => 0

/-! ## The backward scan shared by both determine_point_of_failure variants -/

/-- Backward traversal from index i down to 0, collecting every entry and
stopping after (and including) the first STEP_COMPLETED: the for-loop with
break in determine_point_of_failure.  Output is in traversal order, most
recent event first. -/
def backCollect (log : List LogEvent) : Nat → List LogEvent
  | 0 =>
    match log.get? 0 with
    | some e => [e]
    | none => []
  | i + 1 =>
    match log.get? (i + 1) with
    | none => []
    | some e => if isStepCompleted e then [e] else e :: backCollect log i

/-- Backward search from index i down to 0 for the nearest STEP_COMPLETED:
the generator in fetch_data.determine_point_of_failure that computes
last_completed_index. -/
def lastCompletedBefore (log : List LogEvent) : Nat → Option Nat
  | 0 => if (log.get? 0).any isStepCompleted then some 0 else none
  | i + 1 =>
    if (log.get? (i + 1)).any isStepCompleted then some (i + 1)
    else lastCompletedBefore log i

/-- The failure window in chronological order: steps_after_last_completed
after the final reverse.  tfi is the index of the TASK_FAILED event. -/
def failureWindow (log : List LogEvent) (tfi : Nat) : List LogEvent :=
  if tfi = 0 then [] else (backCollect log (tfi - 1)).reverse

/-! ## determine_point_of_failure (utils/fetch_data.py lines 146 to 204) -/

/-- The debug marker denoting a catch-error handler engagement. -/
def catchDebugMarker : String := "Catching error in step"

/-- The stepUuid recorded by the final iteration of the catch-marker scan:
the last log entry whose debug text contains the marker. -/
def catchTriggerId (log : List LogEvent) : Option String :=
  ((log.filter (fun e => (e.debug.map (fun d => pyContains catchDebugMarker d)).getD false)).getLast?).bind
    (fun e => e.stepUuid)

/-- First STEP_FAILED in the window after the boundary, if any; its
stepUuid becomes final_failed_step_id. -/
def firstFailedInTail (w : List LogEvent) : Option String :=
  ((w.drop 1).find? isStepFailed).bind (fun e => e.stepUuid)

/-- Embeds fetch_data.determine_point_of_failure.  Returns
(final_failed_step_id, catch_error_failed_step_id, steps_between).
The empty-window branch is unreachable when the boundary search
succeeded; the Python code would raise an IndexError there. -/
def determine_point_of_failure (log : List LogEvent) : Option String × Option String × Nat :=
  match firstIdx? isTaskFailed log with
  | none => (none, none, 0)
  | some tfi =>
    match (if tfi = 0 then none else lastCompletedBefore log (tfi - 1)) with
    | none => (none, none, 0)
    | some _ =>
      match failureWindow log tfi with
      | [] => (none, none, 0)
      | [w0] => (w0.stepUuid, none, 0)
      | w0 :: w1 :: wrest =>
        let ff := firstFailedInTail (w0 :: w1 :: wrest)
        let catchId := catchTriggerId log
        let sb :=
          match catchId, ff with
          | some c, some f => if c ≠ "" ∧ f ≠ "" then count_steps_between log c f else 0
          | _, _ => 0
        (ff, catchId, sb)

/-! ## The skipped-steps flag (utils/supporter.py lines 134 to 177)

The supporter.py variant builds the same window and then walks it from
index 1 looking for the first STEP_FAILED at window index i, setting
skipped_steps to true exactly when i is greater than 1. -/

/-- The skipped_steps flag computed from a chronologically ordered window:
the first STEP_FAILED of the tail sits at window index k + 1, and the flag
is set exactly when that index exceeds 1. -/
def skippedStepsOfWindow (w : List LogEvent) : Bool :=
  match firstIdx? isStepFailed (w.drop 1) with
  | some k => decide (0 < k)
  | none => false

/-- Embeds the skipped-steps computation of supporter.determine_point_of_failure.
With no TASK_FAILED event, or a window of at most one event, the function
returns before setting the flag. -/
def supporter_skipped_steps (log : List LogEvent) : Bool :=
  match firstIdx? isTaskFailed log with
  | none => false
  | some tfi =>
    let w := failureWindow log tfi
    if w.length ≤ 1 then false else skippedStepsOfWindow w

/-! ## load_log_preceding_steps (utils/fetch_data.py lines 207 to 273) -/

/-- Merge state of one deduplicated step: the unique_steps dictionary
value.  step is the first event inserted for the key (the latest
occurrence in log order, since traversal is backward); first and last
track the first and last attempt. -/
structure StepInfo where
  step : LogEvent
  retry_count : Nat
  first : LogEvent
  last : LogEvent
deriving DecidableEq

/-- The retry summary attached to an entry merged from several occurrences. -/
structure RetryInfo where
  count : Nat
  first_timestamp : String
  first_error : Option String
  last_timestamp : String
  last_error : Option String
deriving DecidableEq

/-- One element of the returned window.  The Python code pops the raw
eventType key from every entry and relabels the catch-trigger entry with
a sentinel string; base keeps the underlying event (including its
original event type) and sentinel records the relabeling. -/
structure WindowEntry where
  base : LogEvent
  retry : Option RetryInfo
  sentinel : Bool
deriving DecidableEq

/-- Deduplication key: the stepUuid when present and truthy, otherwise
the synthetic key eventType_stepId from the f-string in the source. -/
def stepKey (e : LogEvent) : String :=
  match e.stepUuid with
  | some s => if s = "" then e.eventType ++ "_" ++ e.stepId.getD "" else s
  | none => e.eventType ++ "_" ++ e.stepId.getD ""

/-- Fresh dictionary value for a newly seen key. -/
def newInfo (cur : LogEvent) : StepInfo :=
  { step := cur, retry_count := 1, first := cur, last := cur }

/-- Update for a repeated key: increment retry_count and move first_attempt
to the current (earlier) occurrence. -/
def updInfo (i : StepInfo) (cur : LogEvent) : StepInfo :=
  { i with retry_count := i.retry_count + 1, first := cur }

/-- One dictionary operation of the loop body: insert a new key at the end
(Python dicts preserve insertion order) or update the existing entry.
The Bool reports whether the key was new. -/
def insertStep (assoc : List (String × StepInfo)) (key : String) (cur : LogEvent) :
    List (String × StepInfo) × Bool :=
  match assoc.find? (fun kv => kv.1 == key) with
  | some _ =>
    (assoc.map (fun kv => if kv.1 == key then (kv.1, updInfo kv.2 cur) else kv), false)
  | none => (assoc ++ [(key, newInfo cur)], true)

/-- Insertion of one event under its own key; used to state the loop
characterisation. -/
def insEv (assoc : List (String × StepInfo)) (e : LogEvent) : List (String × StepInfo) :=
  (insertStep assoc (stepKey e) e).1

/-- The main loop of load_log_preceding_steps over the backward traversal
list.  Arguments: remaining events, the unique_steps dictionary, the
regular_step_count, and the steps_to_include budget.  The loop breaks as
soon as the regular count reaches the budget after processing an event of
one of the five collected types.  The second component records the
collected-type events actually processed, in processing order; it is a
specification-only output (the Python loop keeps only the dictionary). -/
def walkFull : List LogEvent → List (String × StepInfo) → Nat → Nat →
    List (String × StepInfo) × List LogEvent
  | [], assoc, _, _ => (assoc, [])
  | cur :: rest, assoc, regular, budget =>
    if isBoundaryType cur then
      let ins := insertStep assoc (stepKey cur) cur
      let newRegular := regular + (if ins.2 && isRegularType cur then 1 else 0)
      if budget ≤ newRegular then (ins.1, [cur])
      else
        let r := walkFull rest ins.1 newRegular budget
        (r.1, cur :: r.2)
    else
      walkFull rest assoc regular budget

/-- Turn a dictionary value into the combined output entry.  A retry block
is attached only when the step occurred more than once.  The branch of the
source that rewrites a pre-existing retry key of the raw event has no
counterpart because run-log events carry no such key. -/
def combineInfo (info : StepInfo) : WindowEntry :=
  { base := info.step
    retry :=
      if 1 < info.retry_count then
        some { count := info.retry_count
               first_timestamp := info.first.timestamp
               first_error := info.first.error
               last_timestamp := info.last.timestamp
               last_error := info.last.error }
      else none
    sentinel := false }

/-- The final relabeling pass: when a truthy catch_error_step_id matches
the stepUuid of an entry, that entry receives the sentinel event type. -/
def relabelCatch (catchId : Option String) (e : WindowEntry) : WindowEntry :=
  match catchId with
  | some c => if c ≠ "" ∧ e.base.stepUuid = some c then { e with sentinel := true } else e
  | none => e

/-- Embeds load_log_preceding_steps.  The traversal runs from the first
index whose stepUuid equals failed_step_id down to the start of the log;
an unresolvable id yields the empty window. -/
def load_log_preceding_steps (log : List LogEvent) (failed_step_id : String)
    (catch_error_step_id : Option String) (steps_to_include : Nat) : List WindowEntry :=
  match firstIdx? (fun e => e.stepUuid == some failed_step_id) log with
  | none => []
  | some fsi =>
    let traversal := (log.take (fsi + 1)).reverse
    let assoc := (walkFull traversal [] 0 steps_to_include).1
    ((assoc.map (fun kv => combineInfo kv.2)).reverse).map (relabelCatch catch_error_step_id)

/-- The collected-type events actually processed by the loop before it
stopped, given the anchor index fsi: the traversed window of the claims. -/
def visitedOf (log : List LogEvent) (fsi : Nat) (steps_to_include : Nat) : List LogEvent :=
  (walkFull ((log.take (fsi + 1)).reverse) [] 0 steps_to_include).2

/-- Specification of the dictionary entry reached after processing a list
of events (in processing order) for one key: the first processed
occurrence provides step and last attempt, the count is the number of
occurrences, and the last processed occurrence provides the first
attempt. -/
def mergedAt (es : List LogEvent) (k : String) : Option StepInfo :=
  match es.filter (fun e => stepKey e == k) with
  | [] => none
  | e0 :: rest =>
    some { step := e0
           retry_count := rest.length + 1
           first := (e0 :: rest).getLast?.getD e0
           last := e0 }

/-- Lookup in the ordered dictionary representation. -/
def aLookup (assoc : List (String × StepInfo)) (k : String) : Option StepInfo :=
  (assoc.find? (fun kv => kv.1 == k)).map Prod.snd

/-- The keys of the dictionary, in insertion order. -/
def keysOf (assoc : List (String × StepInfo)) : List String := assoc.map Prod.fst

/-- Number of dictionary entries whose underlying event consumes the
budget; tracks regular_step_count. -/
def regEntryCount (assoc : List (String × StepInfo)) : Nat :=
  assoc.countP (fun kv => isRegularType kv.2.step)

/-! ## Score fusion in search_similar_errors (utils/fetch_data.py lines 376 to 417) -/

/-- Fusion state of one historical record inside combined_results. -/
structure FusionState where
  score : ℚ
  max_score : ℚ
  appearances : Nat
deriving DecidableEq

/-- Embeds one iteration of the per-hit fusion update: the first hit for a
record seeds the state with its own weighted score; each later hit raises
the running maximum and pulls the running score halfway toward it. -/
def fuseHit (st : Option FusionState) (s : ℚ) : FusionState :=
  match st with
  | none => { score := s, max_score := s, appearances := 1 }
  | some st =>
    let m := max st.max_score s
    { score := m - (m - st.score) * (1 / 2), max_score := m, appearances := st.appearances + 1 }

/-! ## The retry wrappers (utils/ai_utils.py)

Both wrappers guard the request with except AzureOpenAI.  AzureOpenAI is
the client class imported from openai, not an exception class, so when the
body raises, evaluating the except clause itself raises a TypeError
(catching classes that do not inherit from BaseException is not allowed)
carrying the original exception as context; the retry and backoff branch
is unreachable.  The embedding models exactly this control flow.  The
attempts argument gives the outcome of the n-th underlying API call. -/

/-- Python-level failures surfaced by the wrappers. -/
inductive PyExc where
  | apiError (msg : String)
  | typeErrorBadExceptClass (original : PyExc)
  | unexpectedVectorizeError
deriving DecidableEq

/-- Loop of vectorize_text: fuel counts remaining loop iterations, attempt
counts calls made.  On a raised API error the except clause evaluation
raises TypeError at once.  The closing raise after the loop is reachable
only with max_retries equal to zero. -/
def vectorizeGo (attempts : Nat → Except PyExc (List ℚ)) :
    Nat → Nat → Except PyExc (List ℚ) × Nat
  | 0, attempt => (Except.error PyExc.unexpectedVectorizeError, attempt)
  | _ + 1, attempt =>
    match attempts attempt with
    | Except.ok v => (Except.ok v, attempt + 1)
    | Except.error e => (Except.error (PyExc.typeErrorBadExceptClass e), attempt + 1)

/-- Embeds vectorize_text: result together with the number of API calls made. -/
def vectorize_text (attempts : Nat → Except PyExc (List ℚ)) (max_retries : Nat) :
    Except PyExc (List ℚ) × Nat :=
  vectorizeGo attempts max_retries 0

/-- Loop of retry_request_openai, identical control flow; the closing
return of the warning string is reachable only with max_retries zero. -/
def retryRequestGo (attempts : Nat → Except PyExc String) :
    Nat → Nat → Except PyExc String × Nat
  | 0, attempt => (Except.ok ":warning: Unexpected error occurred during API request.", attempt)
  | _ + 1, attempt =>
    match attempts attempt with
    | Except.ok v => (Except.ok v, attempt + 1)
    | Except.error e => (Except.error (PyExc.typeErrorBadExceptClass e), attempt + 1)

/-- Embeds retry_request_openai: result together with the number of API calls. -/
def retry_request_openai (attempts : Nat → Except PyExc String) (max_retries : Nat) :
    Except PyExc String × Nat :=
  retryRequestGo attempts max_retries 0

/-! ## The reaction state machine (slack_integration/event_handler.py lines 196 to 223) -/

/-- Per-message state: last_processed, processing and user_reactions.
Timestamps are integer seconds. -/
structure MessageState where
  last_processed : Int
  processing : Bool
  user_reactions : List String
deriving DecidableEq

/-- The five-minute cooldown, in seconds. -/
def cooldownSeconds : Int := 300

/-- Models datetime.min, the default last_processed of a fresh state; real
event times are required to exceed it by more than the cooldown, which
holds for every realistic clock value. -/
def datetimeMin : Int := 0

/-- The default state created for an unseen (channel, ts) key. -/
def initialMessageState : MessageState :=
  { last_processed := datetimeMin, processing := false, user_reactions := [] }

/-- Embeds the reaction_added branch of handle_event for one key, run to
completion: a repeated user is ignored; otherwise the user is recorded
and, when not processing and the cooldown has elapsed, the pipeline runs
and the finally block clears processing and stamps last_processed with
the completion time finishTime.  Returns the stored state and whether
process_message ran. -/
def handle_reaction_added (st : MessageState) (user : String)
    (eventTime finishTime : Int) : MessageState × Bool :=
  if user ∈ st.user_reactions then (st, false)
  else
    let st1 : MessageState := { st with user_reactions := user :: st.user_reactions }
    if ¬st1.processing ∧ eventTime - st1.last_processed > cooldownSeconds then
      ({ st1 with processing := false, last_processed := finishTime }, true)
    else (st1, false)

/-! ## is_valid_resolved_error (utils/fetch_data.py lines 295 to 358) -/

/-- A historical resolved-error record, with the fields the filter reads.
Absent dictionary keys take the defaults of the .get calls. -/
structure ResolvedError where
  dev_cause : String
  dev_solution : String
  time_spent : Int
deriving DecidableEq

/-- The denylist of unresolved, uncertain or temporary-fix phrases. -/
def invalid_phrases : List String :=
  ["i don\x27t know what happened",
   "not sure what caused this",
   "unable to determine the cause",
   "couldn\x27t figure out the reason",
   "no clear explanation for this",
   "the cause remains unknown",
   "don\x27t have enough information",
   "this error is a mystery",
   "need more data to understand",
   "the root cause is unclear",
   "still investigating this issue",
   "this problem is not well understood",
   "have no idea why this happened",
   "the solution is not obvious",
   "unsure how to fix this",
   "no definitive solution found",
   "need to do more research",
   "this requires further investigation",
   "still looking into this",
   "no permanent fix has been identified",
   "this is an ongoing problem",
   "haven\x27t found a reliable solution",
   "the fix is only temporary",
   "not sure if this will solve it",
   "this may or may not work",
   "try restarting and see what happens",
   "just restart the process and hope",
   "restarted without understanding why",
   "randomly started working again",
   "it fixed itself somehow",
   "the error disappeared on its own",
   "didn\x27t do anything and it worked",
   "no changes made but it\x27s working now",
   "cannot reproduce the error",
   "unable to replicate the issue",
   "the problem seems to have resolved itself",
   "don\x27t understand why it\x27s working now",
   "the cause is not clear at this time",
   "need more time to investigate",
   "the solution is unclear at this point",
   "not certain about the root cause"]

/-- Embeds is_valid_resolved_error; none models a falsy record argument. -/
def is_valid_resolved_error (r? : Option ResolvedError) : Bool :=
  match r? with
  | none => false
  | some r =>
    let cause := pyLower r.dev_cause
    let solution := pyLower r.dev_solution
    if pyWordCount cause < 4 ∨ pyWordCount solution < 3 then false
    else if invalid_phrases.any (fun p => pyContains p cause || pyContains p solution) then false
    else if r.time_spent < 3 then false
    else true

/-! ## Concrete logs and records used to instantiate the theorems -/

/-- Event with a type and an optional stepUuid; remaining fields default. -/
def mkEv (et : String) (u : Option String) : LogEvent :=
  { eventType := et, stepUuid := u }

/-- Event carrying also a stepId coordinate. -/
def mkEvId (et : String) (u : Option String) (sid : Option String) : LogEvent :=
  { eventType := et, stepUuid := u, stepId := sid }

/-- Event carrying also a timestamp. -/
def mkEvTs (et : String) (u : Option String) (ts : String) : LogEvent :=
  { eventType := et, stepUuid := u, timestamp := ts }

/-- Log with one TASK_FAILED, a prior STEP_COMPLETED, and no STEP_FAILED in
the failure window: the point-of-failure scan returns a null failed id. -/
def c1CexLog : List LogEvent :=
  [mkEv "STEP_COMPLETED" (some "a"), mkEv "WAITING" (some "b"), mkEv "TASK_FAILED" none]

/-- Log whose failure window does contain a STEP_FAILED. -/
def c1WitLog : List LogEvent :=
  [mkEv "STEP_COMPLETED" (some "a"), mkEv "WAITING" none,
   mkEv "STEP_FAILED" (some "b"), mkEv "TASK_FAILED" none]

/-- Log whose first failed-id occurrence is an event of a type the window
builder does not collect, under budget zero. -/
def c2CexLog : List LogEvent :=
  [mkEv "STEP_COMPLETED" (some "b"), mkEv "WAITING" (some "a")]

/-- Two-step log ending in the failed step. -/
def c2WitLog : List LogEvent :=
  [mkEv "STEP_COMPLETED" (some "s1"), mkEv "STEP_FAILED" (some "f")]

/-- Window scenario with one intervening event between the boundary and
the first STEP_FAILED. -/
def c6WitLog : List LogEvent :=
  [mkEv "STEP_COMPLETED" (some "a"), mkEv "WAITING" none,
   mkEv "STEP_FAILED" (some "b"), mkEv "TASK_FAILED" none]

/-- Log with catch trigger at index 0, failed step at index 4, and two
step-bearing events strictly between the two. -/
def c7WitLog : List LogEvent :=
  [mkEv "STEP_COMPLETED" (some "c"), mkEv "STEP_COMPLETED" (some "x"),
   mkEv "SUBTASK_COMPLETED" none, mkEv "STEP_COMPLETED" (some "y"),
   mkEv "STEP_FAILED" (some "f")]

/-- Log in which a uuid-less event (synthetic key STEP_COMPLETED_9) is
processed before an event whose stepUuid is the string STEP_COMPLETED_9,
making the two merge under one key. -/
def c8CexLog : List LogEvent :=
  [mkEvId "STEP_COMPLETED" (some "STEP_COMPLETED_9") none,
   mkEvId "STEP_COMPLETED" none (some "9"),
   mkEvId "STEP_FAILED" (some "f") none]

/-- Log with two occurrences of stepUuid s1 before the failed step. -/
def c8WitLog : List LogEvent :=
  [mkEvTs "STEP_COMPLETED" (some "s1") "t1", mkEvTs "STEP_FAILED" (some "s1") "t2",
   mkEvTs "STEP_FAILED" (some "f") "t3"]

/-- Record whose five-word cause is itself a denylisted phrase. -/
def c9CexRecord : ResolvedError :=
  { dev_cause := "The fix is only temporary", dev_solution := "Restart the VM now",
    time_spent := 10 }

/-- Record with a one-word cause and a one-word solution. -/
def c9RejRecord : ResolvedError :=
  { dev_cause := "crashed", dev_solution := "restarted", time_spent := 10 }

/-- Clean record: five-word cause, four-word solution, ten minutes, no
denylisted phrase. -/
def c9AccRecord : ResolvedError :=
  { dev_cause := "the database connection timed out",
    dev_solution := "restart the sql service", time_spent := 10 }

/-- Log with events on both sides of the first failed-id occurrence. -/
def c10WitLog : List LogEvent :=
  [mkEv "STEP_COMPLETED" (some "x"), mkEv "STEP_FAILED" (some "f"),
   mkEv "STEP_COMPLETED" (some "z")]

/-! ## Character-level helper lemmas -/

theorem char_toNat_ofNat (n : Nat) (h : n < 55296) : (Char.ofNat n).toNat = n := by
  have hv : n.isValidChar := Or.inl h
  simp only [Char.ofNat, dif_pos hv]
  rfl

theorem char_eq_iff_toNat (a b : Char) : a = b ↔ a.toNat = b.toNat := by
  constructor
  · intro h; rw [h]
  · intro h
    apply Char.ext
    exact UInt32.ext h

theorem isWhitespace_eq_toNat (c : Char) :
    c.isWhitespace =
      (decide (c.toNat = 32) || decide (c.toNat = 9) ||
        decide (c.toNat = 13) || decide (c.toNat = 10)) := by
  simp only [Char.isWhitespace]
  have h32 : (c = ' ') = (c.toNat = 32) := by rw [char_eq_iff_toNat]; rfl
  have h9 : (c = '\t') = (c.toNat = 9) := by rw [char_eq_iff_toNat]; rfl
  have h13 : (c = '\r') = (c.toNat = 13) := by rw [char_eq_iff_toNat]; rfl
  have h10 : (c = '\n') = (c.toNat = 10) := by rw [char_eq_iff_toNat]; rfl
  simp [h32, h9, h13, h10]

theorem toLower_isWhitespace (c : Char) : c.toLower.isWhitespace = c.isWhitespace := by
  show (if c.toNat ≥ 65 ∧ c.toNat ≤ 90 then Char.ofNat (c.toNat + 32) else c).isWhitespace
    = c.isWhitespace
  by_cases h : c.toNat ≥ 65 ∧ c.toNat ≤ 90
  · rw [if_pos h]
    obtain ⟨hl, hr⟩ := h
    have hlt : c.toNat + 32 < 55296 := by omega
    rw [isWhitespace_eq_toNat, isWhitespace_eq_toNat, char_toNat_ofNat _ hlt]
    have e1 : c.toNat + 32 ≠ 32 := by omega
    have e2 : c.toNat + 32 ≠ 9 := by omega
    have e3 : c.toNat + 32 ≠ 13 := by omega
    have e4 : c.toNat + 32 ≠ 10 := by omega
    have g1 : c.toNat ≠ 32 := by omega
    have g2 : c.toNat ≠ 9 := by omega
    have g3 : c.toNat ≠ 13 := by omega
    have g4 : c.toNat ≠ 10 := by omega
    simp [e1, e2, e3, e4, g1, g2, g3, g4]
  · rw [if_neg h]

theorem wordsChars_map_toLower (l : List Char) :
    ∀ acc : List Char,
      (wordsChars (l.map Char.toLower) (acc.map Char.toLower)).length
        = (wordsChars l acc).length := by
  induction l with
  | nil =>
    intro acc
    simp only [List.map_nil, wordsChars]
    cases acc <;> simp
  | cons c cs ih =>
    intro acc
    simp only [List.map_cons, wordsChars, toLower_isWhitespace]
    by_cases hw : c.isWhitespace
    · rw [if_pos hw, if_pos hw]
      cases acc with
      | nil =>
        simpa using ih []
      | cons a as =>
        simp only [List.isEmpty_cons, List.map_cons, Bool.false_eq_true, if_false]
        have := ih []
        simp only [List.map_nil] at this
        simp [this]
    · rw [if_neg hw, if_neg hw]
      have := ih (c :: acc)
      simpa using this

theorem pyWordCount_pyLower (s : String) : pyWordCount (pyLower s) = pyWordCount s := by
  have h := wordsChars_map_toLower s.data []
  simpa [pyWordCount, pyLower] using h

/-! ## Claim C3: score fusion of two hits -/

theorem fuseHit_none_score (s : ℚ) : (fuseHit none s).score = s := rfl

theorem fuseHit_none_max (s : ℚ) : (fuseHit none s).max_score = s := rfl

theorem fuseHit_some_score (st : FusionState) (s : ℚ) :
    (fuseHit (some st) s).score
      = max st.max_score s - (max st.max_score s - st.score) * (1 / 2) := rfl

/-- Claim C3: when one historical record is hit by exactly two field
searches with weighted scores s1 and s2, s1 at most s2 and both positive,
the fused score after both hits lies in the half-open interval
(s2 times one half, s2], in either arrival order. -/
theorem fusion_two_hits_interval (s1 s2 : ℚ) (h1 : 0 < s1) (h2 : 0 < s2) (h12 : s1 ≤ s2) :
    (s2 * (1 / 2) < (fuseHit (some (fuseHit none s1)) s2).score ∧
      (fuseHit (some (fuseHit none s1)) s2).score ≤ s2) ∧
    (s2 * (1 / 2) < (fuseHit (some (fuseHit none s2)) s1).score ∧
      (fuseHit (some (fuseHit none s2)) s1).score ≤ s2) := by
  rw [fuseHit_some_score, fuseHit_some_score, fuseHit_none_score, fuseHit_none_score,
    fuseHit_none_max, fuseHit_none_max]
  rw [max_eq_right h12, max_eq_left h12]
  constructor
  · constructor <;> nlinarith
  · constructor <;> nlinarith

/-- Witness for claim C3 at scores 1 and 2. -/
theorem fusion_two_hits_interval_check :
    ((2 : ℚ) * (1 / 2) < (fuseHit (some (fuseHit none 1)) 2).score ∧
      (fuseHit (some (fuseHit none 1)) 2).score ≤ 2) ∧
    ((2 : ℚ) * (1 / 2) < (fuseHit (some (fuseHit none 2)) 1).score ∧
      (fuseHit (some (fuseHit none 2)) 1).score ≤ 2) :=
  fusion_two_hits_interval 1 2 (by norm_num) (by norm_num) (by norm_num)

/-! ## Claim C4: the retry wrappers never retry -/

/-- Claim C4: the spec requires up to max_retries attempts with capped
exponential backoff and a typed failure carrying the last error on
exhaustion.  The code guards the request with except AzureOpenAI, the
client class, which is not an exception class, so the first failing
attempt raises TypeError immediately: exactly one attempt is made, no
backoff wait occurs, and the surfaced failure is the TypeError, in both
vectorize_text and retry_request_openai with the default of five
retries. -/
theorem retry_wrappers_fail_on_first_attempt :
    vectorize_text (fun _ => Except.error (PyExc.apiError "server error")) 5
      = (Except.error (PyExc.typeErrorBadExceptClass (PyExc.apiError "server error")), 1) ∧
    retry_request_openai (fun _ => Except.error (PyExc.apiError "server error")) 5
      = (Except.error (PyExc.typeErrorBadExceptClass (PyExc.apiError "server error")), 1) :=
  ⟨rfl, rfl⟩

/-! ## Claim C5: one pipeline run per message within the cooldown -/

/-- Claim C5: two reaction-added events from two different users on the
same message key, handled sequentially with the second event inside the
five-minute cooldown window of the first processing, execute the
diagnosis pipeline exactly once. -/
theorem two_reactions_one_pipeline_run (u1 u2 : String) (t1 f1 t2 f2 : Int)
    (hu : u1 ≠ u2) (h1 : t1 - datetimeMin > cooldownSeconds)
    (h2 : t2 - f1 ≤ cooldownSeconds) :
    (if (handle_reaction_added initialMessageState u1 t1 f1).2 then 1 else 0) +
      (if (handle_reaction_added
            (handle_reaction_added initialMessageState u1 t1 f1).1 u2 t2 f2).2
        then 1 else 0) = 1 := by
  have hrun1 : handle_reaction_added initialMessageState u1 t1 f1
      = ({ last_processed := f1, processing := false, user_reactions := [u1] }, true) := by
    unfold handle_reaction_added initialMessageState
    rw [if_neg (List.not_mem_nil u1)]
    rw [if_pos]
    constructor
    · simp
    · simpa [datetimeMin] using h1
  have hnomem : u2 ∉ [u1] := by
    intro hmem
    exact hu (List.mem_singleton.mp hmem).symm
  have hrun2 : (handle_reaction_added
      ({ last_processed := f1, processing := false, user_reactions := [u1] } : MessageState)
      u2 t2 f2).2 = false := by
    unfold handle_reaction_added
    rw [if_neg hnomem]
    rw [if_neg]
    intro hcond
    exact absurd hcond.2 (by simpa using h2)
  rw [hrun1]
  rw [hrun2]
  rfl

/-- Witness for claim C5 with users alice and bob and the second event
100 seconds after the first processing finished. -/
theorem two_reactions_one_pipeline_run_check :
    (if (handle_reaction_added initialMessageState "alice" 1000 1010).2 then 1 else 0) +
      (if (handle_reaction_added
            (handle_reaction_added initialMessageState "alice" 1000 1010).1 "bob" 1110 1120).2
        then 1 else 0) = 1 :=
  two_reactions_one_pipeline_run "alice" "bob" 1000 1010 1110 1120
    (by decide) (by decide) (by decide)

/-! ## Claim C9: the quality filter -/

/-- Claim C9 counterexample: the record with the five-word cause, the fix
is only temporary, a four-word solution and ten minutes of time spent is
rejected, because the cause matches a denylisted phrase; so the filter
does not accept every record with a five-word cause, four-word solution
and ten minutes of time spent. -/
theorem quality_filter_rejects_denylisted_five_word_cause :
    pyWordCount c9CexRecord.dev_cause = 5 ∧ pyWordCount c9CexRecord.dev_solution = 4 ∧
    c9CexRecord.time_spent = 10 ∧ is_valid_resolved_error (some c9CexRecord) = false := by
  refine ⟨rfl, rfl, rfl, ?_⟩
  rfl

/-- Claim C9 (amended): the filter rejects every record whose cause text
has one word and whose solution text has one word; and it accepts every
record with a five-word cause text, a four-word solution text and ten
minutes of recorded time spent, provided neither lowercased text contains
a denylisted phrase. -/
theorem is_valid_some_eq (r : ResolvedError) :
    is_valid_resolved_error (some r)
      = (if pyWordCount (pyLower r.dev_cause) < 4 ∨ pyWordCount (pyLower r.dev_solution) < 3
          then false
        else if invalid_phrases.any
            (fun p => pyContains p (pyLower r.dev_cause) || pyContains p (pyLower r.dev_solution))
          then false
        else if r.time_spent < 3 then false else true) := rfl

theorem quality_filter_wordcount_and_denylist (r : ResolvedError) :
    (pyWordCount r.dev_cause = 1 → pyWordCount r.dev_solution = 1 →
      is_valid_resolved_error (some r) = false) ∧
    (pyWordCount r.dev_cause = 5 → pyWordCount r.dev_solution = 4 → r.time_spent = 10 →
      (∀ p ∈ invalid_phrases, pyContains p (pyLower r.dev_cause) = false ∧
        pyContains p (pyLower r.dev_solution) = false) →
      is_valid_resolved_error (some r) = true) := by
  constructor
  · intro hc hs
    rw [is_valid_some_eq, if_pos]
    left
    rw [pyWordCount_pyLower, hc]
    omega
  · intro hc hs ht hph
    have hwc : ¬(pyWordCount (pyLower r.dev_cause) < 4 ∨
        pyWordCount (pyLower r.dev_solution) < 3) := by
      rw [pyWordCount_pyLower, pyWordCount_pyLower, hc, hs]
      omega
    have hany : ¬(invalid_phrases.any
        (fun p => pyContains p (pyLower r.dev_cause) || pyContains p (pyLower r.dev_solution))
          = true) := by
      rw [List.any_eq_true]
      rintro ⟨p, hp, hor⟩
      rcases Bool.or_eq_true_iff.mp hor with h | h
      · exact absurd h (by rw [(hph p hp).1]; simp)
      · exact absurd h (by rw [(hph p hp).2]; simp)
    have hts : ¬(r.time_spent < 3) := by rw [ht]; omega
    rw [is_valid_some_eq, if_neg hwc, if_neg hany, if_neg hts]

/-- Witness for claim C9 (amended): a one-word cause and solution record
is rejected and a clean five-word cause, four-word solution, ten-minute
record is accepted. -/
theorem quality_filter_wordcount_and_denylist_check :
    is_valid_resolved_error (some c9RejRecord) = false ∧
    is_valid_resolved_error (some c9AccRecord) = true :=
  ⟨(quality_filter_wordcount_and_denylist c9RejRecord).1 rfl rfl,
   (quality_filter_wordcount_and_denylist c9AccRecord).2 rfl rfl rfl (by decide)⟩

/-! ## Claim C7: count_steps_between -/

theorem countP_range_shift {α : Type} (x : α) (xs : List α) (p : α → Bool) :
    ∀ n a, (List.range' (a + 1) n).countP (fun j => ((x :: xs).get? j).any p)
      = (List.range' a n).countP (fun j => (xs.get? j).any p) := by
  intro n
  induction n with
  | zero => intro a; rfl
  | succ m ih =>
    intro a
    rw [List.range'_succ, List.range'_succ, List.countP_cons, List.countP_cons, ih (a + 1)]
    have : (x :: xs).get? (a + 1) = xs.get? a := rfl
    rw [this]

theorem countP_drop_take {α : Type} (l : List α) (p : α → Bool) :
    ∀ a n, ((l.drop a).take n).countP p
      = (List.range' a n).countP (fun j => (l.get? j).any p) := by
  induction l with
  | nil =>
    intro a n
    simp only [List.drop_nil, List.take_nil, List.countP_nil]
    rw [eq_comm, List.countP_eq_zero]
    intro j hj
    simp
  | cons x xs ih =>
    intro a n
    cases a with
    | zero =>
      cases n with
      | zero => rfl
      | succ m =>
        rw [List.range'_succ, List.countP_cons]
        simp only [List.drop_zero, List.take_succ_cons, List.countP_cons]
        have h1 := ih 0 m
        simp only [List.drop_zero] at h1
        rw [h1, countP_range_shift x xs p m 0]
        have h2 : (x :: xs).get? 0 = some x := rfl
        rw [h2]
        simp [Option.any]
    | succ b =>
      rw [List.drop_succ_cons, ih b n, countP_range_shift x xs p n b]

/-- Claim C7: the steps-between count is zero when either id is absent
from the log or the last occurrence of the catch id does not strictly
precede the last occurrence of the failed id, and otherwise equals the
number of step-bearing events at indices strictly between those two last
occurrences. -/
theorem count_steps_between_characterisation (log : List LogEvent) (sid eid : String) :
    ((occIdxs log sid = [] ∨ occIdxs log eid = []) →
      count_steps_between log sid eid = 0) ∧
    (∀ s e, (occIdxs log sid).getLast? = some s → (occIdxs log eid).getLast? = some e →
      e ≤ s → count_steps_between log sid eid = 0) ∧
    (∀ s e, (occIdxs log sid).getLast? = some s → (occIdxs log eid).getLast? = some e →
      s < e → count_steps_between log sid eid
        = (List.range' (s + 1) (e - (s + 1))).countP
            (fun j => (log.get? j).any isStepBearing)) := by
  have heq : ∀ s e, (occIdxs log sid).getLast? = some s →
      (occIdxs log eid).getLast? = some e →
      count_steps_between log sid eid
        = if e ≤ s then 0
          else ((log.drop (s + 1)).take (e - (s + 1))).countP isStepBearing := by
    intro s e hs he
    unfold count_steps_between
    rw [hs, he]
  refine ⟨?_, ?_, ?_⟩
  · intro h
    unfold count_steps_between
    rcases h with h | h <;> rw [h]
    · rfl
    · cases (occIdxs log sid).getLast? <;> rfl
  · intro s e hs he hle
    rw [heq s e hs he, if_pos hle]
  · intro s e hs he hlt
    rw [heq s e hs he, if_neg (by omega)]
    exact countP_drop_take log isStepBearing (s + 1) (e - (s + 1))

/-- Witness for claim C7 on a log whose last catch occurrence is index 0
and last failed occurrence is index 4, with two step-bearing events
strictly between. -/
theorem count_steps_between_characterisation_check :
    (occIdxs c7WitLog "c").getLast? = some 0 ∧
    (occIdxs c7WitLog "f").getLast? = some 4 ∧
    count_steps_between c7WitLog "c" "f"
      = (List.range' 1 3).countP (fun j => (c7WitLog.get? j).any isStepBearing) :=
  ⟨rfl, rfl,
    (count_steps_between_characterisation c7WitLog "c" "f").2.2 0 4 rfl rfl (by decide)⟩

/-! ## Lemmas about firstIdx? and the backward scan -/

theorem firstIdx?_spec {α : Type} (p : α → Bool) :
    ∀ (l : List α) (i : Nat), firstIdx? p l = some i →
      i < l.length ∧ ∃ x, l.get? i = some x ∧ p x = true := by
  intro l
  induction l with
  | nil => intro i h; simp [firstIdx?] at h
  | cons a as ih =>
    intro i h
    by_cases hp : p a
    · simp [firstIdx?, hp] at h
      subst h
      exact ⟨by simp, a, rfl, hp⟩
    · simp only [firstIdx?, if_neg hp, Option.map_eq_some'] at h
      obtain ⟨k, hk, rfl⟩ := h
      obtain ⟨hlt, x, hx, hpx⟩ := ih k hk
      exact ⟨by simpa using Nat.succ_lt_succ hlt, x, hx, hpx⟩

theorem firstIdx?_take {α : Type} (p : α → Bool) :
    ∀ (l : List α) (i : Nat), firstIdx? p l = some i →
      ∀ x ∈ l.take i, p x = false := by
  intro l
  induction l with
  | nil => intro i h; simp [firstIdx?] at h
  | cons a as ih =>
    intro i h x hx
    by_cases hp : p a
    · simp [firstIdx?, hp] at h
      subst h
      simp at hx
    · simp only [firstIdx?, if_neg hp, Option.map_eq_some'] at h
      obtain ⟨k, hk, rfl⟩ := h
      rw [List.take_succ_cons] at hx
      rcases List.mem_cons.mp hx with rfl | hx
      · exact Bool.eq_false_iff.mpr hp
      · exact ih k hk x hx

theorem lastCompletedBefore_le (log : List LogEvent) :
    ∀ i b, lastCompletedBefore log i = some b → b ≤ i := by
  intro i
  induction i with
  | zero =>
    intro b h
    unfold lastCompletedBefore at h
    by_cases hc : (log.get? 0).any isStepCompleted = true
    · rw [if_pos hc] at h
      injection h with h
      omega
    · rw [if_neg hc] at h; exact absurd h (by simp)
  | succ i ih =>
    intro b h
    unfold lastCompletedBefore at h
    by_cases hc : (log.get? (i + 1)).any isStepCompleted = true
    · rw [if_pos hc] at h
      injection h with h
      omega
    · rw [if_neg hc] at h
      exact Nat.le_succ_of_le (ih b h)

theorem backCollect_provenance (log : List LogEvent) :
    ∀ i b, lastCompletedBefore log i = some b →
      ∀ x ∈ backCollect log i, ∃ j, b ≤ j ∧ j ≤ i ∧ log.get? j = some x := by
  intro i
  induction i with
  | zero =>
    intro b h x hx
    unfold lastCompletedBefore at h
    cases hg : log.get? 0 with
    | none => rw [hg] at h; simp at h
    | some e =>
      rw [hg] at h
      simp only [backCollect, hg] at hx
      by_cases hsc : isStepCompleted e = true
      · simp only [Option.any_some, hsc, if_pos] at h
        injection h with h
        subst h
        simp at hx
        subst hx
        exact ⟨0, Nat.le_refl 0, Nat.le_refl 0, hg⟩
      · simp only [Option.any_some, Bool.eq_false_iff.mpr hsc] at h
        simp at h
  | succ i ih =>
    intro b h x hx
    unfold lastCompletedBefore at h
    cases hg : log.get? (i + 1) with
    | none =>
      simp only [backCollect, hg] at hx
      simp at hx
    | some e =>
      rw [hg] at h
      simp only [backCollect, hg] at hx
      by_cases hsc : isStepCompleted e = true
      · simp only [Option.any_some, hsc, if_pos] at h
        simp only [hsc, if_pos] at hx
        injection h with h
        subst h
        simp at hx
        subst hx
        exact ⟨i + 1, Nat.le_refl _, Nat.le_refl _, hg⟩
      · have hscf : isStepCompleted e = false := Bool.eq_false_iff.mpr hsc
        simp only [Option.any_some, hscf] at h
        simp only [Bool.false_eq_true, if_false] at h
        simp only [hscf, Bool.false_eq_true, if_false] at hx
        rcases List.mem_cons.mp hx with rfl | hx
        · exact ⟨i + 1, Nat.le_succ_of_le (lastCompletedBefore_le log i b h),
            Nat.le_refl _, hg⟩
        · obtain ⟨j, hbj, hji, hj⟩ := ih b h x hx
          exact ⟨j, hbj, Nat.le_succ_of_le hji, hj⟩

theorem backCollect_getLast (log : List LogEvent) :
    ∀ i b, i < log.length → lastCompletedBefore log i = some b →
      ∃ y, log.get? b = some y ∧ (backCollect log i).getLast? = some y := by
  intro i
  induction i with
  | zero =>
    intro b _ h
    unfold lastCompletedBefore at h
    cases hg : log.get? 0 with
    | none => rw [hg] at h; simp at h
    | some e =>
      rw [hg] at h
      by_cases hsc : isStepCompleted e = true
      · simp only [Option.any_some, hsc, if_pos] at h
        injection h with h
        subst h
        refine ⟨e, hg, ?_⟩
        simp only [backCollect, hg]
        rfl
      · simp only [Option.any_some, Bool.eq_false_iff.mpr hsc] at h
        simp at h
  | succ i ih =>
    intro b hi h
    unfold lastCompletedBefore at h
    cases hg : log.get? (i + 1) with
    | none =>
      rw [List.get?_eq_none] at hg
      omega
    | some e =>
      rw [hg] at h
      by_cases hsc : isStepCompleted e = true
      · simp only [Option.any_some, hsc, if_pos] at h
        injection h with h
        subst h
        refine ⟨e, hg, ?_⟩
        simp only [backCollect, hg, hsc, if_pos]
        rfl
      · have hscf : isStepCompleted e = false := Bool.eq_false_iff.mpr hsc
        simp only [Option.any_some, hscf, Bool.false_eq_true, if_false] at h
        obtain ⟨y, hby, hy⟩ := ih b (by omega) h
        refine ⟨y, hby, ?_⟩
        simp only [backCollect, hg, hscf, Bool.false_eq_true, if_false]
        have hne : backCollect log i ≠ [] := by
          intro h0
          rw [h0] at hy
          simp at hy
        cases hbc : backCollect log i with
        | nil => exact absurd hbc hne
        | cons z zs =>
          rw [hbc] at hy
          rw [List.getLast?_cons_cons]
          exact hy

theorem backCollect_dropLast_not_completed (log : List LogEvent) :
    ∀ i, ∀ x ∈ (backCollect log i).dropLast, isStepCompleted x = false := by
  intro i
  induction i with
  | zero =>
    intro x hx
    cases hg : log.get? 0 with
    | none => simp only [backCollect, hg] at hx; simp at hx
    | some e => simp only [backCollect, hg] at hx; simp at hx
  | succ i ih =>
    intro x hx
    cases hg : log.get? (i + 1) with
    | none => simp only [backCollect, hg] at hx; simp at hx
    | some e =>
      simp only [backCollect, hg] at hx
      by_cases hsc : isStepCompleted e = true
      · simp only [hsc, if_pos] at hx; simp at hx
      · have hscf : isStepCompleted e = false := Bool.eq_false_iff.mpr hsc
        simp only [hscf, Bool.false_eq_true, if_false] at hx
        cases hbc : backCollect log i with
        | nil => rw [hbc] at hx; simp at hx
        | cons z zs =>
          rw [hbc] at hx
          rw [List.dropLast_cons₂] at hx
          rcases List.mem_cons.mp hx with rfl | hx
          · exact hscf
          · exact ih x (hbc ▸ hx)

theorem reverse_drop_one {α : Type} (l : List α) : l.reverse.drop 1 = l.dropLast.reverse := by
  induction l using List.reverseRecOn with
  | nil => rfl
  | append_singleton as a ih => simp

/-! ## Claim C1: location of the returned failedStepId -/

/-- Claim C1 counterexample: this log has exactly one TASK_FAILED and a
STEP_COMPLETED before it, yet determine_point_of_failure returns a null
failedStepId because the failure window contains no STEP_FAILED; a null
id identifies no event, so the unconditional claim fails here. -/
theorem failed_step_id_can_be_null :
    c1CexLog.countP isTaskFailed = 1 ∧
    firstIdx? isTaskFailed c1CexLog = some 2 ∧
    lastCompletedBefore c1CexLog 1 = some 0 ∧
    (determine_point_of_failure c1CexLog).1 = none :=
  ⟨rfl, rfl, rfl, rfl⟩

/-- Claim C1 (amended): for every log with exactly one TASK_FAILED and at
least one STEP_COMPLETED before it, whenever determine_point_of_failure
returns a non-null failedStepId, that id is the stepUuid of an event
located at or after the boundary STEP_COMPLETED and at or before the
TASK_FAILED event. -/
theorem failed_step_id_within_window (log : List LogEvent) (tfi b : Nat) (u : String)
    (_hcount : log.countP isTaskFailed = 1)
    (htf : firstIdx? isTaskFailed log = some tfi)
    (hb : (if tfi = 0 then none else lastCompletedBefore log (tfi - 1)) = some b)
    (hres : (determine_point_of_failure log).1 = some u) :
    ∃ j e, b ≤ j ∧ j ≤ tfi ∧ log.get? j = some e ∧ e.stepUuid = some u := by
  have htfi0 : tfi ≠ 0 := by
    intro h0; rw [h0] at hb; simp at hb
  have hlcb : lastCompletedBefore log (tfi - 1) = some b := by
    rw [if_neg htfi0] at hb; exact hb
  have hble : b ≤ tfi - 1 := lastCompletedBefore_le log (tfi - 1) b hlcb
  have htlen : tfi < log.length := (firstIdx?_spec isTaskFailed log tfi htf).1
  have hwdef : failureWindow log tfi = (backCollect log (tfi - 1)).reverse := by
    unfold failureWindow; rw [if_neg htfi0]
  simp only [determine_point_of_failure, htf, hb] at hres
  cases hw : failureWindow log tfi with
  | nil => rw [hw] at hres; simp at hres
  | cons w0 rest =>
    cases rest with
    | nil =>
      simp only [hw] at hres
      have hbc : backCollect log (tfi - 1) = [w0] := by
        have h1 : (backCollect log (tfi - 1)).reverse = [w0] := by rw [← hwdef, hw]
        have h2 := congrArg List.reverse h1
        simpa using h2
      obtain ⟨y, hby, hy⟩ := backCollect_getLast log (tfi - 1) b (by omega) hlcb
      rw [hbc] at hy
      simp at hy
      subst hy
      exact ⟨b, w0, Nat.le_refl b, by omega, hby, hres⟩
    | cons w1 wrest =>
      simp only [hw] at hres
      unfold firstFailedInTail at hres
      rw [Option.bind_eq_some] at hres
      obtain ⟨e, hfind, huuid⟩ := hres
      have hmem : e ∈ (w0 :: w1 :: wrest).drop 1 := List.mem_of_find?_eq_some hfind
      have hmemw : e ∈ failureWindow log tfi := by
        rw [hw]
        exact List.mem_cons_of_mem w0 (by simpa using hmem)
      have hmembc : e ∈ backCollect log (tfi - 1) := by
        rw [hwdef, List.mem_reverse] at hmemw
        exact hmemw
      obtain ⟨j, hbj, hji, hj⟩ := backCollect_provenance log (tfi - 1) b hlcb e hmembc
      exact ⟨j, e, hbj, by omega, hj, huuid⟩

/-- Witness for claim C1 (amended) on a log whose window contains a
STEP_FAILED with stepUuid b. -/
theorem failed_step_id_within_window_check :
    ∃ j e, 0 ≤ j ∧ j ≤ 3 ∧ c1WitLog.get? j = some e ∧ e.stepUuid = some "b" :=
  failed_step_id_within_window c1WitLog 3 0 "b" rfl rfl rfl rfl

/-! ## Claim C6: the skipped-steps flag -/

/-- Claim C6: for a log with a TASK_FAILED, a boundary STEP_COMPLETED and
a matched first STEP_FAILED at window index k + 1, the skipped-steps flag
is true iff at least one event lies strictly between the boundary and
that STEP_FAILED and is of neither of those two types, equivalently iff
the matched STEP_FAILED is not the immediate successor of the boundary
event. -/
theorem skipped_steps_iff_gap (log : List LogEvent) (tfi k : Nat)
    (htf : firstIdx? isTaskFailed log = some tfi)
    (_hb : (log.take tfi).any isStepCompleted = true)
    (hk : firstIdx? isStepFailed ((failureWindow log tfi).drop 1) = some k) :
    (supporter_skipped_steps log = true ↔
      ∃ e ∈ ((failureWindow log tfi).drop 1).take k,
        isStepCompleted e = false ∧ isStepFailed e = false) ∧
    (supporter_skipped_steps log = true ↔ 0 < k) := by
  have htfi0 : tfi ≠ 0 := by
    intro h0
    rw [h0] at hk
    simp [failureWindow, firstIdx?] at hk
  have hwdef : failureWindow log tfi = (backCollect log (tfi - 1)).reverse := by
    unfold failureWindow; rw [if_neg htfi0]
  have hklen : k < ((failureWindow log tfi).drop 1).length := (firstIdx?_spec _ _ _ hk).1
  have hwlen : ¬((failureWindow log tfi).length ≤ 1) := by
    rw [List.length_drop] at hklen; omega
  have hss : supporter_skipped_steps log = decide (0 < k) := by
    unfold supporter_skipped_steps
    simp only [htf]
    rw [if_neg hwlen]
    unfold skippedStepsOfWindow
    simp only [hk]
  have htail : ∀ e ∈ (failureWindow log tfi).drop 1, isStepCompleted e = false := by
    intro e he
    rw [hwdef, reverse_drop_one, List.mem_reverse] at he
    exact backCollect_dropLast_not_completed log (tfi - 1) e he
  constructor
  · rw [hss, decide_eq_true_iff]
    constructor
    · intro hpos
      have hcons : ∃ t0 ts, (failureWindow log tfi).drop 1 = t0 :: ts := by
        cases hc : (failureWindow log tfi).drop 1 with
        | nil => rw [hc] at hklen; simp at hklen
        | cons a as => exact ⟨a, as, rfl⟩
      obtain ⟨t0, ts, htl⟩ := hcons
      have hmem : t0 ∈ ((failureWindow log tfi).drop 1).take k := by
        rw [htl]
        cases k with
        | zero => omega
        | succ k2 => rw [List.take_succ_cons]; exact List.mem_cons_self t0 _
      refine ⟨t0, hmem, ?_, ?_⟩
      · exact htail t0 (by rw [htl]; exact List.mem_cons_self t0 ts)
      · exact firstIdx?_take isStepFailed _ k hk t0 hmem
    · rintro ⟨e, he, _, _⟩
      by_contra h0
      have hk0 : k = 0 := by omega
      rw [hk0] at he
      simp at he
  · rw [hss, decide_eq_true_iff]

/-- Witness for claim C6 on a window with one intervening event. -/
theorem skipped_steps_iff_gap_check : supporter_skipped_steps c6WitLog = true :=
  (skipped_steps_iff_gap c6WitLog 3 1 rfl rfl rfl).2.mpr (by decide)

/-! ## Lemmas about the deduplicating loop of load_log_preceding_steps -/

theorem find?_map_upd_self (key : String) (cur : LogEvent) :
    ∀ assoc : List (String × StepInfo),
      (assoc.map (fun kv => if kv.1 == key then (kv.1, updInfo kv.2 cur) else kv)).find?
          (fun kv => kv.1 == key)
        = (assoc.find? (fun kv => kv.1 == key)).map (fun kv => (kv.1, updInfo kv.2 cur)) := by
  intro assoc
  induction assoc with
  | nil => rfl
  | cons a as ih =>
    by_cases ha : (a.1 == key) = true
    · have hhead : (if a.1 == key then (a.1, updInfo a.2 cur) else a) = (a.1, updInfo a.2 cur) :=
        if_pos ha
      have ha2 : ((a.1, updInfo a.2 cur).1 == key) = true := ha
      rw [List.map_cons, hhead, List.find?_cons, List.find?_cons, ha2]
      rfl
    · have haf : (a.1 == key) = false := Bool.eq_false_iff.mpr ha
      have hhead : (if a.1 == key then (a.1, updInfo a.2 cur) else a) = a := if_neg ha
      rw [List.map_cons, hhead, List.find?_cons, List.find?_cons, haf]
      exact ih

theorem find?_map_upd_ne (key k : String) (cur : LogEvent) (hne : k ≠ key) :
    ∀ assoc : List (String × StepInfo),
      (assoc.map (fun kv => if kv.1 == key then (kv.1, updInfo kv.2 cur) else kv)).find?
          (fun kv => kv.1 == k)
        = assoc.find? (fun kv => kv.1 == k) := by
  intro assoc
  induction assoc with
  | nil => rfl
  | cons a as ih =>
    by_cases hakey : (a.1 == key) = true
    · have h1 : a.1 = key := eq_of_beq hakey
      have hak : (a.1 == k) = false := by
        rw [beq_eq_false_iff_ne, h1]
        exact Ne.symm hne
      have hhead : (if a.1 == key then (a.1, updInfo a.2 cur) else a) = (a.1, updInfo a.2 cur) :=
        if_pos hakey
      have hak2 : ((a.1, updInfo a.2 cur).1 == k) = false := hak
      rw [List.map_cons, hhead, List.find?_cons, List.find?_cons, hak2]
      exact ih
    · have hhead : (if a.1 == key then (a.1, updInfo a.2 cur) else a) = a := if_neg hakey
      rw [List.map_cons, hhead, List.find?_cons, List.find?_cons]
      cases hak : (a.1 == k) with
      | true => rfl
      | false => exact ih

theorem aLookup_insEv_self (assoc : List (String × StepInfo)) (e : LogEvent) :
    aLookup (insEv assoc e) (stepKey e)
      = some (match aLookup assoc (stepKey e) with
              | none => newInfo e
              | some i => updInfo i e) := by
  unfold insEv aLookup
  cases hf : assoc.find? (fun kv => kv.1 == stepKey e) with
  | none =>
    simp only [insertStep, hf, List.find?_append, Option.map_none']
    simp [List.find?_cons]
  | some kv0 =>
    simp only [insertStep, hf]
    rw [find?_map_upd_self (stepKey e) e assoc, hf]
    simp

theorem aLookup_insEv_ne (assoc : List (String × StepInfo)) (e : LogEvent) (k : String)
    (hne : k ≠ stepKey e) :
    aLookup (insEv assoc e) k = aLookup assoc k := by
  unfold insEv aLookup
  cases hf : assoc.find? (fun kv => kv.1 == stepKey e) with
  | none =>
    simp only [insertStep, hf, List.find?_append]
    have h1 : List.find? (fun kv => kv.1 == k) [(stepKey e, newInfo e)] = none := by
      simp [List.find?_cons, beq_eq_false_iff_ne, Ne.symm hne]
    rw [h1]
    simp
  | some kv0 =>
    simp only [insertStep, hf]
    rw [find?_map_upd_ne (stepKey e) k e hne assoc]

theorem walkFull_fst_foldl :
    ∀ (l : List LogEvent) (assoc : List (String × StepInfo)) (r B : Nat),
      (walkFull l assoc r B).1 = (walkFull l assoc r B).2.foldl insEv assoc := by
  intro l
  induction l with
  | nil => intro assoc r B; rfl
  | cons cur rest ih =>
    intro assoc r B
    by_cases hb : isBoundaryType cur = true
    · simp only [walkFull, hb, if_pos]
      by_cases hbr : B ≤ r + (if (insertStep assoc (stepKey cur) cur).2 && isRegularType cur
          then 1 else 0)
      · rw [if_pos hbr]
        rfl
      · rw [if_neg hbr]
        simp only [List.foldl_cons]
        exact ih (insEv assoc cur) _ B
    · have hbf : isBoundaryType cur = false := Bool.eq_false_iff.mpr hb
      simp only [walkFull, hbf, Bool.false_eq_true, if_false]
      exact ih assoc r B

theorem walkFull_visited_mem :
    ∀ (l : List LogEvent) (assoc : List (String × StepInfo)) (r B : Nat),
      ∀ x ∈ (walkFull l assoc r B).2, x ∈ l := by
  intro l
  induction l with
  | nil => intro assoc r B x hx; simp [walkFull] at hx
  | cons cur rest ih =>
    intro assoc r B x hx
    by_cases hb : isBoundaryType cur = true
    · simp only [walkFull, hb, if_pos] at hx
      by_cases hbr : B ≤ r + (if (insertStep assoc (stepKey cur) cur).2 && isRegularType cur
          then 1 else 0)
      · rw [if_pos hbr] at hx
        simp at hx
        subst hx
        exact List.mem_cons_self _ _
      · rw [if_neg hbr] at hx
        rcases List.mem_cons.mp hx with rfl | hx
        · exact List.mem_cons_self x rest
        · exact List.mem_cons_of_mem cur (ih _ _ B x hx)
    · have hbf : isBoundaryType cur = false := Bool.eq_false_iff.mpr hb
      simp only [walkFull, hbf, Bool.false_eq_true, if_false] at hx
      exact List.mem_cons_of_mem cur (ih assoc r B x hx)

theorem insEv_mem_cases (assoc : List (String × StepInfo)) (e : LogEvent)
    (kv : String × StepInfo) (h : kv ∈ insEv assoc e) :
    (∃ kv0 ∈ assoc, kv.1 = kv0.1 ∧ kv.2.step = kv0.2.step) ∨ kv = (stepKey e, newInfo e) := by
  unfold insEv at h
  cases hf : assoc.find? (fun kv => kv.1 == stepKey e) with
  | none =>
    simp only [insertStep, hf] at h
    rcases List.mem_append.mp h with h1 | h1
    · exact Or.inl ⟨kv, h1, rfl, rfl⟩
    · simp at h1
      exact Or.inr h1
  | some kv0 =>
    simp only [insertStep, hf] at h
    obtain ⟨kv1, hkv1, hmap⟩ := List.mem_map.mp h
    left
    refine ⟨kv1, hkv1, ?_, ?_⟩
    · rw [← hmap]
      split <;> rfl
    · rw [← hmap]
      split <;> rfl

theorem foldl_steps_mem :
    ∀ (es : List LogEvent) (kv : String × StepInfo),
      kv ∈ es.foldl insEv [] → kv.2.step ∈ es := by
  intro es
  induction es using List.reverseRecOn with
  | nil => intro kv h; simp at h
  | append_singleton es e ih =>
    intro kv h
    rw [List.foldl_append] at h
    simp only [List.foldl_cons, List.foldl_nil] at h
    rcases insEv_mem_cases _ e kv h with ⟨kv0, hkv0, _, hstep⟩ | rfl
    · rw [hstep]
      exact List.mem_append_left _ (ih kv0 hkv0)
    · simp [newInfo]

theorem foldl_entry_key :
    ∀ (es : List LogEvent) (kv : String × StepInfo),
      kv ∈ es.foldl insEv [] → stepKey kv.2.step = kv.1 := by
  intro es
  induction es using List.reverseRecOn with
  | nil => intro kv h; simp at h
  | append_singleton es e ih =>
    intro kv h
    rw [List.foldl_append] at h
    simp only [List.foldl_cons, List.foldl_nil] at h
    rcases insEv_mem_cases _ e kv h with ⟨kv0, hkv0, hkey, hstep⟩ | rfl
    · rw [hstep, hkey]
      exact ih kv0 hkv0
    · rfl

theorem keysOf_insEv (assoc : List (String × StepInfo)) (e : LogEvent) :
    keysOf (insEv assoc e) = keysOf assoc ∨
      (keysOf (insEv assoc e) = keysOf assoc ++ [stepKey e] ∧ stepKey e ∉ keysOf assoc) := by
  unfold insEv
  cases hf : assoc.find? (fun kv => kv.1 == stepKey e) with
  | some kv0 =>
    left
    simp only [insertStep, hf]
    unfold keysOf
    rw [List.map_map]
    apply List.map_congr_left
    intro kv _
    show (if kv.1 == stepKey e then (kv.1, updInfo kv.2 e) else kv).1 = kv.1
    split <;> rfl
  | none =>
    right
    simp only [insertStep, hf]
    constructor
    · unfold keysOf
      rw [List.map_append]
      rfl
    · intro hmem
      obtain ⟨kv, hkv, heq⟩ := List.mem_map.mp hmem
      have h2 := List.find?_eq_none.mp hf kv hkv
      exact h2 (by rw [heq]; simp)

theorem foldl_keys_nodup : ∀ es : List LogEvent, (keysOf (es.foldl insEv [])).Nodup := by
  intro es
  induction es using List.reverseRecOn with
  | nil => simp [keysOf]
  | append_singleton es e ih =>
    rw [List.foldl_append]
    simp only [List.foldl_cons, List.foldl_nil]
    rcases keysOf_insEv (es.foldl insEv []) e with h | ⟨h, hfresh⟩
    · rw [h]; exact ih
    · rw [h]
      rw [List.nodup_append]
      refine ⟨ih, List.nodup_singleton _, ?_⟩
      intro a ha hb
      rw [List.mem_singleton] at hb
      exact hfresh (hb ▸ ha)

theorem aLookup_of_mem_nodup :
    ∀ (assoc : List (String × StepInfo)) (kv : String × StepInfo),
      (keysOf assoc).Nodup → kv ∈ assoc → aLookup assoc kv.1 = some kv.2 := by
  intro assoc
  induction assoc with
  | nil => intro kv _ h; simp at h
  | cons a as ih =>
    intro kv hnd hmem
    have hnd2 : (keysOf as).Nodup := by
      unfold keysOf at hnd ⊢
      simp only [List.map_cons] at hnd
      exact hnd.of_cons
    rcases List.mem_cons.mp hmem with rfl | hmem
    · unfold aLookup
      rw [List.find?_cons]
      simp
    · have hne : kv.1 ≠ a.1 := by
        intro heq
        unfold keysOf at hnd
        simp only [List.map_cons] at hnd
        have := (List.nodup_cons.mp hnd).1
        exact this (heq ▸ List.mem_map_of_mem Prod.fst hmem)
      unfold aLookup
      rw [List.find?_cons]
      have : (a.1 == kv.1) = false := beq_eq_false_iff_ne.mpr (Ne.symm hne)
      rw [this]
      simp only [cond_false]
      exact ih kv hnd2 hmem

theorem aLookup_foldl_mergedAt :
    ∀ (es : List LogEvent) (k : String), aLookup (es.foldl insEv []) k = mergedAt es k := by
  intro es
  induction es using List.reverseRecOn with
  | nil => intro k; rfl
  | append_singleton es e ih =>
    intro k
    rw [List.foldl_append]
    simp only [List.foldl_cons, List.foldl_nil]
    by_cases hke : k = stepKey e
    · subst hke
      rw [aLookup_insEv_self, ih (stepKey e)]
      unfold mergedAt
      rw [List.filter_append]
      have hfe1 : List.filter (fun x => stepKey x == stepKey e) [e] = [e] := by simp
      rw [hfe1]
      cases hfe : es.filter (fun x => stepKey x == stepKey e) with
      | nil => simp [newInfo]
      | cons e0 rest =>
        simp only [List.cons_append]
        simp only [updInfo, Option.getD]
        rw [← List.cons_append, List.getLast?_concat]
        cases hrl : (e0 :: rest).getLast? with
        | none => simp at hrl
        | some g =>
          simp [List.length_append]
    · have hne2 : stepKey e ≠ k := Ne.symm hke
      rw [aLookup_insEv_ne _ _ _ hke, ih k]
      unfold mergedAt
      rw [List.filter_append]
      have hfe1 : List.filter (fun x => stepKey x == k) [e] = [] := by
        simp [beq_eq_false_iff_ne]
        exact hne2
      rw [hfe1, List.append_nil]

/-! ## Window construction helpers -/

theorem mem_take_idx {α : Type} :
    ∀ (l : List α) (n : Nat) (x : α), x ∈ l.take n → ∃ j, j < n ∧ l.get? j = some x := by
  intro l
  induction l with
  | nil => intro n x hx; simp at hx
  | cons a as ih =>
    intro n x hx
    cases n with
    | zero => simp at hx
    | succ m =>
      rw [List.take_succ_cons] at hx
      rcases List.mem_cons.mp hx with rfl | hx
      · exact ⟨0, Nat.succ_pos m, rfl⟩
      · obtain ⟨j, hj, hget⟩ := ih m x hx
        exact ⟨j + 1, Nat.succ_lt_succ hj, hget⟩

theorem get?_mem_take {α : Type} :
    ∀ (l : List α) (n j : Nat) (y : α), j < n → l.get? j = some y → y ∈ l.take n := by
  intro l
  induction l with
  | nil => intro n j y _ h; simp at h
  | cons a as ih =>
    intro n j y hjn hget
    cases n with
    | zero => omega
    | succ m =>
      rw [List.take_succ_cons]
      cases j with
      | zero =>
        injection hget with hget
        subst hget
        exact List.mem_cons_self _ _
      | succ i =>
        exact List.mem_cons_of_mem a (ih m i y (by omega) hget)

theorem getLast?_take_succ {α : Type} :
    ∀ (l : List α) (n : Nat) (x : α), l.get? n = some x → (l.take (n + 1)).getLast? = some x := by
  intro l
  induction l with
  | nil => intro n x h; simp at h
  | cons a as ih =>
    intro n x h
    cases n with
    | zero =>
      injection h with h
      subst h
      rfl
    | succ m =>
      rw [List.take_succ_cons]
      have h1 := ih m x h
      cases hc : as.take (m + 1) with
      | nil => rw [hc] at h1; simp at h1
      | cons z zs =>
        rw [hc] at h1
        rw [List.getLast?_cons_cons]
        exact h1

theorem relabelCatch_base (c : Option String) (we : WindowEntry) :
    (relabelCatch c we).base = we.base := by
  cases c with
  | none => rfl
  | some s =>
    show (if s ≠ "" ∧ we.base.stepUuid = some s
        then { we with sentinel := true } else we).base = we.base
    split <;> rfl

theorem relabelCatch_retry (c : Option String) (we : WindowEntry) :
    (relabelCatch c we).retry = we.retry := by
  cases c with
  | none => rfl
  | some s =>
    show (if s ≠ "" ∧ we.base.stepUuid = some s
        then { we with sentinel := true } else we).retry = we.retry
    split <;> rfl

theorem combineInfo_base (i : StepInfo) : (combineInfo i).base = i.step := rfl

theorem window_eq (log : List LogEvent) (fid : String) (c : Option String) (B fsi : Nat)
    (hfsi : firstIdx? (fun e => e.stepUuid == some fid) log = some fsi) :
    load_log_preceding_steps log fid c B
      = (((walkFull ((log.take (fsi + 1)).reverse) [] 0 B).1.map
          (fun kv => combineInfo kv.2)).reverse).map (relabelCatch c) := by
  unfold load_log_preceding_steps
  rw [hfsi]

theorem window_countP_base (A : List (String × StepInfo)) (c : Option String)
    (p : LogEvent → Bool) :
    (((A.map (fun kv => combineInfo kv.2)).reverse).map (relabelCatch c)).countP
        (fun we => p we.base)
      = A.countP (fun kv => p kv.2.step) := by
  rw [List.countP_map]
  have h1 : ((fun we => p we.base) ∘ relabelCatch c) = fun we => p we.base := by
    funext we
    simp [Function.comp, relabelCatch_base]
  rw [h1, List.countP_reverse, List.countP_map]
  rfl

theorem window_countP_pointwise (A : List (String × StepInfo)) (c : Option String)
    (p : WindowEntry → Bool) (q : String × StepInfo → Bool)
    (h : ∀ kv : String × StepInfo, p (relabelCatch c (combineInfo kv.2)) = q kv) :
    (((A.map (fun kv => combineInfo kv.2)).reverse).map (relabelCatch c)).countP p
      = A.countP q := by
  rw [List.countP_map, List.countP_reverse, List.countP_map]
  refine List.countP_congr (fun kv _ => ?_)
  show p (relabelCatch c (combineInfo kv.2)) = true ↔ q kv = true
  rw [h kv]

theorem countP_key_le_one (A : List (String × StepInfo)) (u : String)
    (hnd : (keysOf A).Nodup) : A.countP (fun kv => kv.1 == u) ≤ 1 := by
  have h1 : A.countP (fun kv => kv.1 == u) = (keysOf A).countP (fun k => k == u) := by
    unfold keysOf
    rw [List.countP_map]
    rfl
  rw [h1]
  have h2 : (keysOf A).countP (fun k => k == u) = (keysOf A).count u := rfl
  rw [h2]
  exact List.nodup_iff_count_le_one.mp hnd u

theorem regEntryCount_insertStep (assoc : List (String × StepInfo)) (key : String)
    (cur : LogEvent) :
    regEntryCount (insertStep assoc key cur).1
      = regEntryCount assoc
        + (if (insertStep assoc key cur).2 && isRegularType cur then 1 else 0) := by
  cases hf : assoc.find? (fun kv => kv.1 == key) with
  | some kv0 =>
    simp only [insertStep, hf]
    unfold regEntryCount
    rw [List.countP_map]
    have : ((fun kv => isRegularType kv.2.step) ∘
        fun kv => if kv.1 == key then (kv.1, updInfo kv.2 cur) else kv)
        = fun kv : String × StepInfo => isRegularType kv.2.step := by
      funext kv
      show isRegularType (if kv.1 == key then (kv.1, updInfo kv.2 cur) else kv).2.step
        = isRegularType kv.2.step
      split <;> rfl
    rw [this]
    simp
  | none =>
    simp only [insertStep, hf]
    unfold regEntryCount
    rw [List.countP_append]
    simp [List.countP_cons, List.countP_nil, newInfo, Bool.true_and]

theorem walkFull_reg_bound :
    ∀ (l : List LogEvent) (assoc : List (String × StepInfo)) (r B : Nat),
      regEntryCount assoc = r → regEntryCount (walkFull l assoc r B).1 ≤ max B (r + 1) := by
  intro l
  induction l with
  | nil =>
    intro assoc r B h
    simp only [walkFull]
    omega
  | cons cur rest ih =>
    intro assoc r B h
    by_cases hb : isBoundaryType cur = true
    · simp only [walkFull, hb, if_pos]
      have hra : regEntryCount (insertStep assoc (stepKey cur) cur).1
          = r + (if (insertStep assoc (stepKey cur) cur).2 && isRegularType cur
              then 1 else 0) := by
        rw [regEntryCount_insertStep, h]
      by_cases hbr : B ≤ r + (if (insertStep assoc (stepKey cur) cur).2 && isRegularType cur
          then 1 else 0)
      · rw [if_pos hbr]
        show regEntryCount (insertStep assoc (stepKey cur) cur).1 ≤ max B (r + 1)
        rw [hra]
        have hd : (if (insertStep assoc (stepKey cur) cur).2 && isRegularType cur
            then 1 else 0) ≤ 1 := by split <;> omega
        omega
      · rw [if_neg hbr]
        show regEntryCount (walkFull rest (insertStep assoc (stepKey cur) cur).1
            (r + if (insertStep assoc (stepKey cur) cur).2 && isRegularType cur
              then 1 else 0) B).1 ≤ max B (r + 1)
        have h2 := ih (insertStep assoc (stepKey cur) cur).1 _ B hra
        have h3 : max B (r + (if (insertStep assoc (stepKey cur) cur).2 && isRegularType cur
            then 1 else 0) + 1) = B := by
          apply Nat.max_eq_left
          omega
        rw [h3] at h2
        have h4 : B ≤ max B (r + 1) := Nat.le_max_left _ _
        omega
    · have hbf : isBoundaryType cur = false := Bool.eq_false_iff.mpr hb
      simp only [walkFull, hbf, Bool.false_eq_true, if_false]
      exact ih assoc r B h

theorem insertStep_head_step (assoc : List (String × StepInfo)) (key : String)
    (cur : LogEvent) (a : String × StepInfo) (h : assoc.head? = some a) :
    ∃ a2, (insertStep assoc key cur).1.head? = some a2 ∧ a2.2.step = a.2.step := by
  cases hf : assoc.find? (fun kv => kv.1 == key) with
  | none =>
    simp only [insertStep, hf]
    rw [List.head?_append, h]
    exact ⟨a, rfl, rfl⟩
  | some kv0 =>
    simp only [insertStep, hf]
    rw [List.head?_map, h]
    refine ⟨_, rfl, ?_⟩
    show (if a.1 == key then (a.1, updInfo a.2 cur) else a).2.step = a.2.step
    split <;> rfl

theorem walkFull_head_step :
    ∀ (l : List LogEvent) (assoc : List (String × StepInfo)) (r B : Nat)
      (a : String × StepInfo), assoc.head? = some a →
      ∃ a2, (walkFull l assoc r B).1.head? = some a2 ∧ a2.2.step = a.2.step := by
  intro l
  induction l with
  | nil => intro assoc r B a h; exact ⟨a, h, rfl⟩
  | cons cur rest ih =>
    intro assoc r B a h
    by_cases hb : isBoundaryType cur = true
    · simp only [walkFull, hb, if_pos]
      obtain ⟨a2, h2, hstep⟩ := insertStep_head_step assoc (stepKey cur) cur a h
      by_cases hbr : B ≤ r + (if (insertStep assoc (stepKey cur) cur).2 && isRegularType cur
          then 1 else 0)
      · rw [if_pos hbr]
        exact ⟨a2, h2, hstep⟩
      · rw [if_neg hbr]
        obtain ⟨a3, h3, hstep3⟩ := ih (insertStep assoc (stepKey cur) cur).1 _ B a2 h2
        exact ⟨a3, h3, hstep3.trans hstep⟩
    · have hbf : isBoundaryType cur = false := Bool.eq_false_iff.mpr hb
      simp only [walkFull, hbf, Bool.false_eq_true, if_false]
      exact ih assoc r B a h

theorem walkFull_first_entry (rest : List LogEvent) (r B : Nat) (e : LogEvent)
    (hb : isBoundaryType e = true) :
    ∃ kv, (walkFull (e :: rest) [] r B).1.head? = some kv ∧ kv.2.step = e := by
  have hins : insertStep [] (stepKey e) e = ([(stepKey e, newInfo e)], true) := rfl
  simp only [walkFull, hb, if_pos, hins]
  by_cases hbr : B ≤ r + (if true && isRegularType e then 1 else 0)
  · rw [if_pos hbr]
    exact ⟨(stepKey e, newInfo e), rfl, rfl⟩
  · rw [if_neg hbr]
    exact walkFull_head_step rest [(stepKey e, newInfo e)] _ B (stepKey e, newInfo e) rfl

/-! ## Claim C10: the window is anchored at the first occurrence -/

/-- Claim C10: load_log_preceding_steps anchors its traversal at the
first log index whose stepUuid equals failed_step_id: that index carries
the id, no earlier index does, and every returned entry originates from
an event at or before that index. -/
theorem window_anchored_at_first_occurrence (log : List LogEvent) (fid : String)
    (c : Option String) (B fsi : Nat)
    (hfsi : firstIdx? (fun e => e.stepUuid == some fid) log = some fsi) :
    (fsi < log.length ∧ (∃ ev, log.get? fsi = some ev ∧ ev.stepUuid = some fid) ∧
      (∀ j y, j < fsi → log.get? j = some y → y.stepUuid ≠ some fid)) ∧
    (∀ we ∈ load_log_preceding_steps log fid c B,
      ∃ j, j ≤ fsi ∧ log.get? j = some we.base) := by
  obtain ⟨hlen, x, hx, hpx⟩ := firstIdx?_spec _ log fsi hfsi
  refine ⟨⟨hlen, ⟨x, hx, eq_of_beq hpx⟩, ?_⟩, ?_⟩
  · intro j y hj hy hcontra
    have hmem : y ∈ log.take fsi := get?_mem_take log fsi j y hj hy
    have h2 : (y.stepUuid == some fid) = false := firstIdx?_take _ log fsi hfsi y hmem
    rw [hcontra] at h2
    simp at h2
  · intro we hwe
    rw [window_eq log fid c B fsi hfsi] at hwe
    obtain ⟨we0, hwe0, hrel⟩ := List.mem_map.mp hwe
    rw [List.mem_reverse] at hwe0
    obtain ⟨kv, hkv, hcomb⟩ := List.mem_map.mp hwe0
    have hbase : we.base = kv.2.step := by
      rw [← hrel, relabelCatch_base, ← hcomb, combineInfo_base]
    rw [walkFull_fst_foldl _ [] 0 B] at hkv
    have hstep := foldl_steps_mem _ kv hkv
    have hvis := walkFull_visited_mem ((log.take (fsi + 1)).reverse) [] 0 B _ hstep
    rw [List.mem_reverse] at hvis
    obtain ⟨j, hj, hget⟩ := mem_take_idx log (fsi + 1) _ hvis
    exact ⟨j, by omega, by rw [hbase]; exact hget⟩

/-- Witness for claim C10 on a log with an occurrence of another step
after the anchor index. -/
theorem window_anchored_at_first_occurrence_check :
    (1 < c10WitLog.length ∧ (∃ ev, c10WitLog.get? 1 = some ev ∧ ev.stepUuid = some "f") ∧
      (∀ j y, j < 1 → c10WitLog.get? j = some y → y.stepUuid ≠ some "f")) ∧
    (∀ we ∈ load_log_preceding_steps c10WitLog "f" none 10,
      ∃ j, j ≤ 1 ∧ c10WitLog.get? j = some we.base) :=
  window_anchored_at_first_occurrence c10WitLog "f" none 10 1 rfl

/-! ## Claim C2: budget bound and terminal entry -/

/-- Claim C2 counterexample: with budget zero on a log whose first
failed-id occurrence has a non-collected event type, the window holds one
budget-consuming entry (more than the budget) and its last entry is not
the failed step even though the log contains the failed id. -/
theorem window_budget_counterexample :
    (load_log_preceding_steps c2CexLog "a" none 0).countP
        (fun we => isRegularType we.base) = 1 ∧
    c2CexLog.any (fun e => e.stepUuid == some "a") = true ∧
    (load_log_preceding_steps c2CexLog "a" none 0).getLast?.map (fun we => we.base.stepUuid)
      = some (some "b") :=
  ⟨rfl, rfl, rfl⟩

/-- Claim C2 (amended): the returned window holds at most max(B, 1)
entries whose original event type consumes the budget (at most B whenever
B is at least 1), and whenever the event at the first failed-id index has
one of the five collected types, the window is non-empty and its
chronologically last entry is that event. -/
theorem window_budget_and_terminal (log : List LogEvent) (fid : String) (c : Option String)
    (B fsi : Nat)
    (hfsi : firstIdx? (fun e => e.stepUuid == some fid) log = some fsi) :
    (load_log_preceding_steps log fid c B).countP (fun we => isRegularType we.base)
      ≤ max B 1 ∧
    (∀ ev, log.get? fsi = some ev → isBoundaryType ev = true →
      ∃ we, (load_log_preceding_steps log fid c B).getLast? = some we ∧ we.base = ev) := by
  constructor
  · rw [window_eq log fid c B fsi hfsi, window_countP_base]
    exact walkFull_reg_bound ((log.take (fsi + 1)).reverse) [] 0 B rfl
  · intro ev hev hbtype
    have htr : ((log.take (fsi + 1)).reverse).head? = some ev := by
      rw [List.head?_reverse]
      exact getLast?_take_succ log fsi ev hev
    obtain ⟨tr2, htr2⟩ : ∃ tr2, (log.take (fsi + 1)).reverse = ev :: tr2 := by
      cases hc : (log.take (fsi + 1)).reverse with
      | nil => rw [hc] at htr; simp at htr
      | cons z zs =>
        rw [hc] at htr
        injection htr with htr
        subst htr
        exact ⟨zs, rfl⟩
    obtain ⟨kv, hkv, hkvstep⟩ := walkFull_first_entry tr2 0 B ev hbtype
    rw [window_eq log fid c B fsi hfsi, htr2]
    rw [List.getLast?_map, List.getLast?_reverse, List.head?_map, hkv]
    exact ⟨relabelCatch c (combineInfo kv.2), rfl,
      by rw [relabelCatch_base, combineInfo_base, hkvstep]⟩

/-- Witness for claim C2 (amended) on a two-step log with budget ten. -/
theorem window_budget_and_terminal_check :
    (load_log_preceding_steps c2WitLog "f" none 10).countP
        (fun we => isRegularType we.base) ≤ max 10 1 ∧
    ∃ we, (load_log_preceding_steps c2WitLog "f" none 10).getLast? = some we ∧
      we.base = mkEv "STEP_FAILED" (some "f") :=
  ⟨(window_budget_and_terminal c2WitLog "f" none 10 1 rfl).1,
   (window_budget_and_terminal c2WitLog "f" none 10 1 rfl).2
     (mkEv "STEP_FAILED" (some "f")) rfl rfl⟩

/-! ## Claim C8: retry merging -/

/-- Claim C8 counterexample: the traversed window of c8CexLog contains
exactly one occurrence of the stepUuid STEP_COMPLETED_9, yet the window
contains no entry carrying that stepUuid: a uuid-less event whose
synthetic key equals that string was processed first and provides the
merged entry, so the entry count for the uuid is zero rather than one. -/
theorem retry_merge_key_collision :
    ((visitedOf c8CexLog 2 10).filter
        (fun e => e.stepUuid == some "STEP_COMPLETED_9")).length = 1 ∧
    firstIdx? (fun e => e.stepUuid == some "f") c8CexLog = some 2 ∧
    (load_log_preceding_steps c8CexLog "f" none 10).countP
        (fun we => we.base.stepUuid == some "STEP_COMPLETED_9") = 0 :=
  ⟨rfl, rfl, rfl⟩

/-- Claim C8 (amended): consider a stepUuid u such that every traversed
event is merged under key u exactly when its stepUuid is u (no synthetic
key collision).  If the traversed window contains M occurrences of u
(M at least 1), the returned window carries exactly one entry with
stepUuid u; and when M exceeds 1 that entry carries retry count M with
the first-attempt fields from the chronologically earliest occurrence
(the last element of the traversal-order occurrence list) and the
last-attempt fields from the latest occurrence (its head). -/
theorem retry_merge_unique_entry (log : List LogEvent) (fid u : String) (c : Option String)
    (B fsi M : Nat)
    (hfsi : firstIdx? (fun e => e.stepUuid == some fid) log = some fsi)
    (hkey : ∀ e ∈ visitedOf log fsi B, (stepKey e = u ↔ e.stepUuid = some u))
    (hM : ((visitedOf log fsi B).filter (fun e => e.stepUuid == some u)).length = M)
    (hM1 : 1 ≤ M) :
    (load_log_preceding_steps log fid c B).countP
        (fun we => we.base.stepUuid == some u) = 1 ∧
    (1 < M → ∀ we ∈ load_log_preceding_steps log fid c B, we.base.stepUuid = some u →
      ∃ efirst elast,
        ((visitedOf log fsi B).filter (fun e => e.stepUuid == some u)).getLast? = some efirst ∧
        ((visitedOf log fsi B).filter (fun e => e.stepUuid == some u)).head? = some elast ∧
        we.retry = some
          { count := M
            first_timestamp := efirst.timestamp
            first_error := efirst.error
            last_timestamp := elast.timestamp
            last_error := elast.error }) := by
  have hfilter : (visitedOf log fsi B).filter (fun e => stepKey e == u)
      = (visitedOf log fsi B).filter (fun e => e.stepUuid == some u) := by
    apply List.filter_congr
    intro e he
    by_cases h1 : stepKey e = u
    · have h2 := (hkey e he).mp h1
      simp [h1, h2]
    · have h2 : ¬(e.stepUuid = some u) := fun hc => h1 ((hkey e he).mpr hc)
      simp [h1, h2]
  obtain ⟨e0, rest2, hoccs⟩ :
      ∃ e0 rest2, (visitedOf log fsi B).filter (fun e => e.stepUuid == some u)
        = e0 :: rest2 := by
    cases hc : (visitedOf log fsi B).filter (fun e => e.stepUuid == some u) with
    | nil => rw [hc] at hM; simp at hM; omega
    | cons a as => exact ⟨a, as, rfl⟩
  have hmerged : mergedAt (visitedOf log fsi B) u
      = some { step := e0, retry_count := rest2.length + 1,
               first := (e0 :: rest2).getLast?.getD e0, last := e0 } := by
    unfold mergedAt
    rw [hfilter, hoccs]
  have hlookup : aLookup ((visitedOf log fsi B).foldl insEv []) u
      = some { step := e0, retry_count := rest2.length + 1,
               first := (e0 :: rest2).getLast?.getD e0, last := e0 } := by
    rw [aLookup_foldl_mergedAt]
    exact hmerged
  have he0occ : e0 ∈ (visitedOf log fsi B).filter (fun e => e.stepUuid == some u) := by
    rw [hoccs]; exact List.mem_cons_self _ _
  have he0uuid : (e0.stepUuid == some u) = true := (List.mem_filter.mp he0occ).2
  have hfoldA : (walkFull ((log.take (fsi + 1)).reverse) [] 0 B).1
      = (visitedOf log fsi B).foldl insEv [] := walkFull_fst_foldl _ [] 0 B
  obtain ⟨kvf, hkvf, hkvf2⟩ :
      ∃ kvf, ((visitedOf log fsi B).foldl insEv []).find? (fun kv => kv.1 == u) = some kvf ∧
        kvf.2 = { step := e0, retry_count := rest2.length + 1,
                  first := (e0 :: rest2).getLast?.getD e0, last := e0 } := by
    unfold aLookup at hlookup
    rw [Option.map_eq_some'] at hlookup
    obtain ⟨kv, h1, h2⟩ := hlookup
    exact ⟨kv, h1, h2⟩
  have hmono : ∀ kv ∈ (visitedOf log fsi B).foldl insEv [],
      (kv.2.step.stepUuid == some u) = true → (kv.1 == u) = true := by
    intro kv hkv hq
    have hk1 := foldl_entry_key _ kv hkv
    have hk2 := foldl_steps_mem _ kv hkv
    have hk3 : kv.2.step.stepUuid = some u := eq_of_beq hq
    have hk4 : stepKey kv.2.step = u := (hkey _ hk2).mpr hk3
    rw [← hk1, hk4]
    simp
  have hcount : ((visitedOf log fsi B).foldl insEv []).countP
      (fun kv => kv.2.step.stepUuid == some u) = 1 := by
    have hle : ((visitedOf log fsi B).foldl insEv []).countP
        (fun kv => kv.2.step.stepUuid == some u)
        ≤ ((visitedOf log fsi B).foldl insEv []).countP (fun kv => kv.1 == u) :=
      List.countP_mono_left hmono
    have hle2 := countP_key_le_one _ u (foldl_keys_nodup (visitedOf log fsi B))
    have hpos : 0 < ((visitedOf log fsi B).foldl insEv []).countP
        (fun kv => kv.2.step.stepUuid == some u) := by
      rw [List.countP_pos_iff]
      refine ⟨kvf, List.mem_of_find?_eq_some hkvf, ?_⟩
      rw [hkvf2]
      exact he0uuid
    omega
  constructor
  · rw [window_eq log fid c B fsi hfsi]
    rw [window_countP_pointwise _ c (fun we => we.base.stepUuid == some u)
        (fun kv => kv.2.step.stepUuid == some u)
        (fun kv => by
          show ((relabelCatch c (combineInfo kv.2)).base.stepUuid == some u)
            = (kv.2.step.stepUuid == some u)
          rw [relabelCatch_base, combineInfo_base])]
    rw [hfoldA]
    exact hcount
  · intro hM2 we hwe hbase
    rw [window_eq log fid c B fsi hfsi] at hwe
    obtain ⟨we0, hwe0, hrel⟩ := List.mem_map.mp hwe
    rw [List.mem_reverse] at hwe0
    obtain ⟨kv, hkv, hcomb⟩ := List.mem_map.mp hwe0
    rw [hfoldA] at hkv
    have hbase2 : we.base = kv.2.step := by
      rw [← hrel, relabelCatch_base, ← hcomb, combineInfo_base]
    have hkvu : kv.1 = u := by
      have hk1 := foldl_entry_key _ kv hkv
      have hk2 := foldl_steps_mem _ kv hkv
      have hk3 : kv.2.step.stepUuid = some u := by rw [← hbase2]; exact hbase
      rw [← hk1]
      exact (hkey _ hk2).mpr hk3
    have hlk := aLookup_of_mem_nodup _ kv (foldl_keys_nodup (visitedOf log fsi B)) hkv
    rw [hkvu, hlookup] at hlk
    have hkv2 : kv.2
        = { step := e0, retry_count := rest2.length + 1,
            first := (e0 :: rest2).getLast?.getD e0, last := e0 } := by
      injection hlk with hlk
      exact hlk.symm
    obtain ⟨g, hg⟩ : ∃ g, (e0 :: rest2).getLast? = some g := by
      cases hgl : (e0 :: rest2).getLast? with
      | none => simp at hgl
      | some g => exact ⟨g, rfl⟩
    have hMlen : rest2.length + 1 = M := by
      rw [← hM, hoccs]
      rfl
    refine ⟨g, e0, by rw [hoccs]; exact hg, by rw [hoccs]; rfl, ?_⟩
    have hretry : we.retry = (combineInfo kv.2).retry := by
      rw [← hrel, relabelCatch_retry, ← hcomb]
    rw [hretry, hkv2]
    unfold combineInfo
    rw [if_pos (by omega : 1 < rest2.length + 1)]
    rw [hg]
    simp only [Option.getD]
    rw [hMlen]

/-- Witness for claim C8 (amended) on a log with two occurrences of
stepUuid s1 before the failed step: the unique merged entry carries retry
count 2, first attempt from timestamp t1 and last attempt from t2. -/
theorem retry_merge_unique_entry_check :
    (load_log_preceding_steps c8WitLog "f" none 10).countP
        (fun we => we.base.stepUuid == some "s1") = 1 ∧
    (∃ efirst elast,
      ((visitedOf c8WitLog 2 10).filter (fun e => e.stepUuid == some "s1")).getLast?
        = some efirst ∧
      ((visitedOf c8WitLog 2 10).filter (fun e => e.stepUuid == some "s1")).head?
        = some elast ∧
      WindowEntry.retry
          { base := mkEvTs "STEP_FAILED" (some "s1") "t2"
            retry := some
              { count := 2
                first_timestamp := "t1"
                first_error := none
                last_timestamp := "t2"
                last_error := none }
            sentinel := false }
        = some
          { count := 2
            first_timestamp := efirst.timestamp
            first_error := efirst.error
            last_timestamp := elast.timestamp
            last_error := elast.error }) :=
  ⟨(retry_merge_unique_entry c8WitLog "f" "s1" none 10 2 2 rfl (by decide) rfl
      (by decide)).1,
   (retry_merge_unique_entry c8WitLog "f" "s1" none 10 2 2 rfl (by decide) rfl
      (by decide)).2 (by decide)
     { base := mkEvTs "STEP_FAILED" (some "s1") "t2"
       retry := some
         { count := 2
           first_timestamp := "t1"
           first_error := none
           last_timestamp := "t2"
           last_error := none }
       sentinel := false }
     (by decide) rfl⟩

end Supporter
